import Mathlib

/-!
Shallow embedding of the interactive timeline editor of
`frontend/src/components/TimelineEditor.tsx` (VideoCaps).

JavaScript `number` values are idealized as exact rationals `ℚ`; the numeric
literals `0.1`, `99.95`, … denote the exact rationals the source writes.  The
division-by-zero convention of `ℚ` (`q / 0 = 0`) differs from JavaScript
(`Infinity`/`NaN`); no theorem below evaluates a division at a zero
denominator except where explicitly discussed.
-/

namespace VideoCaps

/-- The `TimelineSegment` interface of `TimelineEditor.tsx` (lines 5–10):
caption text, start/end times in seconds, and an optional speaker label. -/
structure TimelineSegment where
  text : String
  start : ℚ
  «end» : ℚ
  speaker : Option String
deriving Repr, DecidableEq

/-- The non-null drag modes of `type DragMode` (line 20).  The `null` case of
the source type is modelled as `Option DragMode` in the component state. -/
inductive DragMode where
  | move
  | resizeStart
  | resizeEnd
deriving Repr, DecidableEq

/-- `timeToPixels` (lines 75–79).  `width?` is `timelineRef.current?.offsetWidth`:
`none` models a null ref, in which case the source returns `0` before any
arithmetic.  Otherwise the source computes `(time / totalDuration) * width * zoom`
with no guard on `totalDuration`. -/
def timeToPixels (totalDuration zoom : ℚ) (width? : Option ℚ) (time : ℚ) : ℚ :=
  match width? with
  | none => 0
  | some width => time / totalDuration * width * zoom

/-- `pixelsToTime` (lines 81–85): `0` on a null ref, otherwise
`(pixels / (width * zoom)) * totalDuration`, again with no guard on
`totalDuration`. -/
def pixelsToTime (totalDuration zoom : ℚ) (width? : Option ℚ) (pixels : ℚ) : ℚ :=
  match width? with
  | none => 0
  | some width => pixels / (width * zoom) * totalDuration

/-- The per-mode bounds computation of `handleMouseMove` (lines 121–135),
applied to the segment currently stored at the dragged index.
`dragStartTime` is the anchor recorded at pointer-down and `deltaTime` the
pointer delta already converted to seconds. -/
def dragUpdate (totalDuration dragStartTime deltaTime : ℚ) (mode : DragMode)
    (segment : TimelineSegment) : TimelineSegment :=
  match mode with
  | .move =>
    let newStart := max 0 (dragStartTime + deltaTime)
    let newEnd := newStart + (segment.«end» - segment.start)
    if newEnd > totalDuration then
      { segment with start := totalDuration - (segment.«end» - segment.start),
                     «end» := totalDuration }
    else
      { segment with start := newStart, «end» := newEnd }
  | .resizeStart =>
    { segment with start := max 0 (min (dragStartTime + deltaTime) (segment.«end» - 0.1)) }
  | .resizeEnd =>
    { segment with «end» := min totalDuration (max (dragStartTime + deltaTime) (segment.start + 0.1)) }

/-- The at-rest segment invariant of the spec: `0 ≤ start < end ≤ totalDuration`. -/
def SegInvariant (totalDuration : ℚ) (s : TimelineSegment) : Prop :=
  0 ≤ s.start ∧ s.start < s.«end» ∧ s.«end» ≤ totalDuration

/-- The component props the embedded behaviour depends on: `totalDuration` and
whether the optional `onSegmentUpdate` callback was supplied (line 14). -/
structure EditorProps where
  totalDuration : ℚ
  hasOnSegmentUpdate : Bool
deriving Repr, DecidableEq

/-- The `useState` pieces of the component (lines 29–36).  `draggedIndex` and
`dragMode` are `null`-able in the source and become `Option`s here. -/
structure EditorState where
  timelineSegments : List TimelineSegment
  draggedIndex : Option Nat
  dragMode : Option DragMode
  dragStartX : ℚ
  dragStartTime : ℚ
  currentTime : ℚ
  isPlaying : Bool
  zoom : ℚ
deriving Repr, DecidableEq

/-- The events the component reacts to: the pointer handlers, an external
replacement of the `segments` prop (the `useEffect` at lines 40–42), one
interval tick of the playback simulation (lines 45–66), a click-to-seek on the
timeline (lines 164–170) and the play/pause toggle (line 179). -/
inductive EditorEvent where
  | mouseDown (index : Nat) (mode : DragMode) (clientX : ℚ)
  | mouseMove (clientX : ℚ)
  | mouseUp
  | setSegments (newSegments : List TimelineSegment)
  | tick
  | timelineClick (clientX rectLeft : ℚ)
  | togglePlay
deriving Repr, DecidableEq

/-- One event step of the component.  `width?` is the measured
`timelineRef.current?.offsetWidth` at the moment of the event (`none` = null
ref).  The result is `none` when the source would throw a `TypeError` by
reading `.start`/`.end` of `undefined` (an out-of-range index); otherwise it is
the new state together with the `(index, newStart, newEnd)` argument of the
`onSegmentUpdate` call the event makes, if any. -/
def step (p : EditorProps) (width? : Option ℚ) (st : EditorState) :
    EditorEvent → Option (EditorState × Option (Nat × ℚ × ℚ))
  | .mouseDown index mode clientX =>
    match st.timelineSegments.get? index with
    | none => none
    | some seg =>
      some ({ st with
                draggedIndex := some index
                dragMode := some mode
                dragStartX := clientX
                dragStartTime := if mode = .resizeEnd then seg.«end» else seg.start }, none)
  | .mouseMove clientX =>
    match st.draggedIndex, st.dragMode, width? with
    | some i, some mode, some _ =>
      match st.timelineSegments.get? i with
      | none => none
      | some segment =>
        let deltaX := clientX - st.dragStartX
        let deltaTime := pixelsToTime p.totalDuration st.zoom width? deltaX
        let updated := dragUpdate p.totalDuration st.dragStartTime deltaTime mode segment
        some ({ st with timelineSegments := st.timelineSegments.set i updated }, none)
    | _, _, _ => some (st, none)
  | .mouseUp =>
    match st.draggedIndex, p.hasOnSegmentUpdate with
    | some i, true =>
      match st.timelineSegments.get? i with
      | none => none
      | some segment =>
        some ({ st with draggedIndex := none, dragMode := none },
              some (i, segment.start, segment.«end»))
    | _, _ => some ({ st with draggedIndex := none, dragMode := none }, none)
  | .setSegments newSegments =>
    some ({ st with timelineSegments := newSegments }, none)
  | .tick =>
    if st.isPlaying then
      if st.currentTime ≥ p.totalDuration then
        some ({ st with isPlaying := false, currentTime := 0 }, none)
      else
        some ({ st with currentTime := st.currentTime + 0.1 }, none)
    else
      some (st, none)
  | .timelineClick clientX rectLeft =>
    match width?, st.draggedIndex with
    | some _, none =>
      let clickX := clientX - rectLeft
      some ({ st with currentTime := pixelsToTime p.totalDuration st.zoom width? clickX }, none)
    | _, _ => some (st, none)
  | .togglePlay =>
    some ({ st with isPlaying := !st.isPlaying }, none)

/-- A whole run of pointer-move events of one drag session, each converted to a
time delta: `handleMouseMove` recomputes the candidate bounds from the anchor
`dragStartTime` and the current delta against the segment currently stored at
the dragged index, so a session is a fold of `dragUpdate` over the deltas. -/
def runMoves (totalDuration dragStartTime : ℚ) (mode : DragMode)
    (s : TimelineSegment) (deltas : List ℚ) : TimelineSegment :=
  deltas.foldl (fun cur δ => dragUpdate totalDuration dragStartTime δ mode cur) s

/-- The anchor `handleMouseDown` records (line 110): the segment's `end` for a
`resize-end` drag, its `start` otherwise. -/
def anchorFor (mode : DragMode) (s : TimelineSegment) : ℚ :=
  if mode = .resizeEnd then s.«end» else s.start

/-- The fixed palette of `getSpeakerColor` (lines 89–96). -/
def colors : List String :=
  ["bg-blue-500", "bg-green-500", "bg-purple-500",
   "bg-yellow-500", "bg-pink-500", "bg-indigo-500"]

/-- Numeric value of a hexadecimal digit character. -/
def hexDigitVal (c : Char) : Nat :=
  if c.isDigit then c.toNat - 48 else c.toLower.toNat - 87

/-- Whether a character is a hexadecimal digit as accepted by `parseInt`. -/
def isHexDigitChar (c : Char) : Bool :=
  c.isDigit || (97 ≤ c.toLower.toNat && c.toLower.toNat ≤ 102)

/-- Model of the JavaScript builtin `parseInt(s)` with no radix argument:
skip leading whitespace, read an optional sign, then the longest prefix of
decimal digits (or, after a `0x`/`0X` prefix, hexadecimal digits); the result
is `none` — modelling `NaN` — when that prefix is empty. -/
def jsParseInt (s : String) : Option Int :=
  let cs := s.data.dropWhile Char.isWhitespace
  let signRest : Int × List Char :=
    match cs with
    | '-' :: t => (-1, t)
    | '+' :: t => (1, t)
    | t => (1, t)
  match signRest.2 with
  | '0' :: 'x' :: t =>
    let ds := t.takeWhile isHexDigitChar
    if ds = [] then none
    else some (signRest.1 * (ds.foldl (fun a c => a * 16 + hexDigitVal c) (0 : Nat) : Nat))
  | '0' :: 'X' :: t =>
    let ds := t.takeWhile isHexDigitChar
    if ds = [] then none
    else some (signRest.1 * (ds.foldl (fun a c => a * 16 + hexDigitVal c) (0 : Nat) : Nat))
  | t =>
    let ds := t.takeWhile Char.isDigit
    if ds = [] then none
    else some (signRest.1 * (ds.foldl (fun a c => a * 10 + (c.toNat - 48)) (0 : Nat) : Nat))

/-- JavaScript `a || b` on a possibly-undefined string: `undefined` and the
empty string are falsy and yield `b`. -/
def jsOrElse (a : Option String) (b : String) : String :=
  match a with
  | none => b
  | some s => if s = "" then b else s

/-- Split a character list at every occurrence of `sep`, keeping empty
fields, matching the JavaScript `String.prototype.split` with a
single-character separator. -/
def splitOnChar (sep : Char) : List Char → List (List Char)
  | [] => [[]]
  | c :: rest =>
    match splitOnChar sep rest with
    | [] => [[c]]
    | h :: t => if c = sep then [] :: h :: t else (c :: h) :: t

/-- The fields of `speaker.split` on the underscore character. -/
def speakerFields (s : String) : List String :=
  (splitOnChar '_' s.data).map (fun cs => String.mk cs)

/-- The numeric suffix extraction of `getSpeakerColor` (line 97): `parseInt`
applied to the second underscore-separated field of the label, defaulting to
the one-character string "0" when that field is missing or empty; `none`
models a `NaN` result of `parseInt`. -/
def speakerNum (s : String) : Option Int :=
  jsParseInt (jsOrElse ((speakerFields s).get? 1) "0")

/-- `getSpeakerColor` (lines 87–99).  A `none` speaker (or the falsy empty
string) short-circuits to the default class.  Otherwise the source evaluates
`colors[speakerNum % colors.length]`: JavaScript `%` truncates toward zero
(`Int.tmod`), a negative or `NaN` index reads `undefined` from the array —
modelled by a `none` result. -/
def getSpeakerColor (speaker : Option String) : Option String :=
  match speaker with
  | none => some "bg-blue-500"
  | some s =>
    if s = "" then some "bg-blue-500"
    else
      match speakerNum s with
      | none => none
      | some n =>
        let i := Int.tmod n (colors.length : Int)
        if 0 ≤ i then colors.get? i.toNat else none

example : getSpeakerColor (some "SPEAKER_01") = some "bg-green-500" := by decide
example : getSpeakerColor (some "SPEAKER_07") = some "bg-green-500" := by decide
example : getSpeakerColor none = some "bg-blue-500" := by decide
example : getSpeakerColor (some "ALICE") = some "bg-blue-500" := by decide
example : getSpeakerColor (some "SPEAKER_") = some "bg-blue-500" := by decide
example : getSpeakerColor (some "A_B") = none := by decide
example : getSpeakerColor (some "A_-1") = none := by decide

example : dragUpdate 100 10 5 .move ⟨"a", 10, 12, none⟩ = ⟨"a", 15, 17, none⟩ := by
  norm_num [dragUpdate]

example : dragUpdate 100 95 10 .move ⟨"a", 95, 98, none⟩ = ⟨"a", 97, 100, none⟩ := by
  norm_num [dragUpdate]

example : dragUpdate 100 12 (-5) .resizeEnd ⟨"a", 10, 12, none⟩ = ⟨"a", 10, 10.1, none⟩ := by
  norm_num [dragUpdate]

lemma dragUpdate_text (d a δ : ℚ) (m : DragMode) (s : TimelineSegment) :
    (dragUpdate d a δ m s).text = s.text := by
  cases m
  · simp only [dragUpdate]
    split <;> rfl
  · rfl
  · rfl

lemma dragUpdate_speaker (d a δ : ℚ) (m : DragMode) (s : TimelineSegment) :
    (dragUpdate d a δ m s).speaker = s.speaker := by
  cases m
  · simp only [dragUpdate]
    split <;> rfl
  · rfl
  · rfl

lemma dragUpdate_move_duration (d a δ : ℚ) (s : TimelineSegment) :
    (dragUpdate d a δ .move s).«end» - (dragUpdate d a δ .move s).start =
      s.«end» - s.start := by
  simp only [dragUpdate]
  split <;> ring

lemma dragUpdate_resizeStart_end (d a δ : ℚ) (s : TimelineSegment) :
    (dragUpdate d a δ .resizeStart s).«end» = s.«end» := rfl

lemma dragUpdate_resizeEnd_start (d a δ : ℚ) (s : TimelineSegment) :
    (dragUpdate d a δ .resizeEnd s).start = s.start := rfl

/-- `handleMouseMove` recomputes the candidate bounds from the anchor and the
current total delta, so applying an update after any earlier update of the
same session gives the same segment as applying it to the session's original
segment: the drag is history-independent. -/
lemma dragUpdate_dragUpdate (d a δ δ' : ℚ) (m : DragMode) (s : TimelineSegment) :
    dragUpdate d a δ m (dragUpdate d a δ' m s) = dragUpdate d a δ m s := by
  obtain ⟨tx, st, en, sp⟩ := s
  cases m
  · simp only [dragUpdate]
    split_ifs with h1 h2 h3 h4 <;> simp_all
  · rfl
  · rfl

/-- Preservation of the at-rest invariant by a single drag update, in every
mode. -/
lemma dragUpdate_invariant (d a δ : ℚ) (m : DragMode) (s : TimelineSegment)
    (h : SegInvariant d s) : SegInvariant d (dragUpdate d a δ m s) := by
  obtain ⟨h0, hlt, hle⟩ := h
  cases m
  · simp only [dragUpdate, SegInvariant]
    split_ifs with hclamp
    · refine ⟨by simp only []; linarith, by simp only []; linarith, le_refl _⟩
    · push_neg at hclamp
      refine ⟨le_max_left 0 _, by simp only []; linarith, by simp only []; linarith⟩
  · have h01 : (0 : ℚ) < 0.1 := by norm_num
    simp only [dragUpdate, SegInvariant]
    refine ⟨le_max_left 0 _, ?_, hle⟩
    have h1 : min (a + δ) (s.«end» - 0.1) ≤ s.«end» - 0.1 :=
      min_le_right (a + δ) (s.«end» - 0.1)
    exact max_lt (by linarith) (by linarith)
  · have h01 : (0 : ℚ) < 0.1 := by norm_num
    simp only [dragUpdate, SegInvariant]
    refine ⟨h0, ?_, min_le_left _ _⟩
    have h1 : s.start + 0.1 ≤ max (a + δ) (s.start + 0.1) :=
      le_max_right (a + δ) (s.start + 0.1)
    exact lt_min (by linarith) (by linarith)

/-- Applying a final update after an arbitrary run of earlier updates of the
same session equals applying it directly to the original segment. -/
lemma dragUpdate_runMoves (d a : ℚ) (m : DragMode) (deltas : List ℚ) (δ : ℚ)
    (s : TimelineSegment) :
    dragUpdate d a δ m (runMoves d a m s deltas) = dragUpdate d a δ m s := by
  induction deltas generalizing s with
  | nil => rfl
  | cons c rest ih =>
    simp only [runMoves, List.foldl_cons] at *
    rw [ih (dragUpdate d a c m s), dragUpdate_dragUpdate]

/-- A zero-delta update of a segment that satisfies the at-rest invariant and
has duration at least `0.1` is the identity, with the anchor recorded the way
`handleMouseDown` records it. -/
lemma dragUpdate_zero (d : ℚ) (m : DragMode) (s : TimelineSegment)
    (hinv : SegInvariant d s) (hdur : 0.1 ≤ s.«end» - s.start) :
    dragUpdate d (anchorFor m s) 0 m s = s := by
  obtain ⟨h0, hlt, hle⟩ := hinv
  obtain ⟨tx, st, en, sp⟩ := s
  simp only [SegInvariant] at h0 hlt hle
  simp only at h0 hlt hle hdur
  have h01 : (0 : ℚ) < 0.1 := by norm_num
  cases m
  · simp only [dragUpdate, anchorFor, reduceCtorEq, if_false, add_zero]
    rw [max_eq_right h0]
    have hne : ¬ st + (en - st) > d := by push_neg; linarith
    rw [if_neg hne]
    congr 1
    ring
  · simp only [dragUpdate, anchorFor, reduceCtorEq, if_false, add_zero]
    rw [min_eq_left (by linarith), max_eq_right h0]
  · simp only [dragUpdate, anchorFor, if_true, add_zero]
    rw [max_eq_left (by linarith), min_eq_right hle]

/-- C7: for every `time` in `[0, totalDuration]`, viewport width `w > 0`, zoom
`z ∈ [0.5, 4.0]` and duration `d > 0`, the coordinate mapper round-trips
exactly in rational arithmetic:
`pixelsToTime (timeToPixels time) = time`. -/
theorem coordinate_mapper_round_trip (t d w z : ℚ) (ht0 : 0 ≤ t) (htd : t ≤ d)
    (hd : 0 < d) (hw : 0 < w) (hz1 : 1 / 2 ≤ z) (hz2 : z ≤ 4) :
    pixelsToTime d z (some w) (timeToPixels d z (some w) t) = t := by
  have hd0 : d ≠ 0 := ne_of_gt hd
  have hw0 : w ≠ 0 := ne_of_gt hw
  have hz0 : z ≠ 0 := ne_of_gt (by linarith)
  simp only [timeToPixels, pixelsToTime]
  field_simp
  ring

theorem coordinate_mapper_round_trip_witness :
    pixelsToTime 100 1 (some 800) (timeToPixels 100 1 (some 800) 25) = 25 :=
  coordinate_mapper_round_trip 25 100 800 1 (by norm_num) (by norm_num)
    (by norm_num) (by norm_num) (by norm_num) (by norm_num)

/-- C6 counterexample: at `totalDuration = -1` (which is `≤ 0`) with the
timeline element present at width 1 and zoom 1, `timeToPixels 1` and
`pixelsToTime 1` both evaluate to `-1`, not `0`, refuting the claim that both
functions return `0` whenever `totalDuration ≤ 0`. -/
theorem mapper_duration_guard_cex :
    timeToPixels (-1) 1 (some 1) 1 ≠ 0 ∧ pixelsToTime (-1) 1 (some 1) 1 ≠ 0 := by
  norm_num [timeToPixels, pixelsToTime]

/-- C6 amended: the source has no `totalDuration` guard at all — the early
`return 0` of both mappers fires exactly when the timeline ref is null.  For
`totalDuration < 0` and positive time/pixel inputs both functions are
strictly negative, not `0` (and at `totalDuration = 0` the JavaScript
arithmetic produces non-finite values, likewise not `0`). -/
theorem mapper_negative_duration_no_guard (d z w t px : ℚ)
    (hd : d < 0) (hw : 0 < w) (hz : 0 < z) (ht : 0 < t) (hp : 0 < px) :
    timeToPixels d z (some w) t < 0 ∧ pixelsToTime d z (some w) px < 0 ∧
    timeToPixels d z none t = 0 ∧ pixelsToTime d z none px = 0 := by
  refine ⟨?_, ?_, rfl, rfl⟩
  · simp only [timeToPixels]
    have h1 : t / d < 0 := div_neg_of_pos_of_neg ht hd
    exact mul_neg_of_neg_of_pos (mul_neg_of_neg_of_pos h1 hw) hz
  · simp only [pixelsToTime]
    have h1 : 0 < px / (w * z) := div_pos hp (mul_pos hw hz)
    exact mul_neg_of_pos_of_neg h1 hd

theorem mapper_negative_duration_no_guard_witness :
    timeToPixels (-1) 1 (some 1) 1 < 0 ∧ pixelsToTime (-1) 1 (some 1) 1 < 0 ∧
    timeToPixels (-1) 1 none 1 = 0 ∧ pixelsToTime (-1) 1 none 1 = 0 :=
  mapper_negative_duration_no_guard (-1) 1 1 1 1 (by norm_num) (by norm_num)
    (by norm_num) (by norm_num) (by norm_num)

/-- C2: a `move` update on a segment satisfying the at-rest invariant
preserves the duration exactly, keeps the result inside `[0, totalDuration]`,
and computes exactly `newStart = max 0 (anchor + delta)`,
`newEnd = newStart + duration` when that fits, and pins
`newEnd = totalDuration`, `newStart = totalDuration - duration` when it would
overflow the right edge. -/
theorem move_drag_update_formula (d a δ : ℚ) (s : TimelineSegment)
    (hinv : SegInvariant d s) :
    ((dragUpdate d a δ .move s).«end» - (dragUpdate d a δ .move s).start =
      s.«end» - s.start) ∧
    0 ≤ (dragUpdate d a δ .move s).start ∧
    (dragUpdate d a δ .move s).start < (dragUpdate d a δ .move s).«end» ∧
    (dragUpdate d a δ .move s).«end» ≤ d ∧
    (max 0 (a + δ) + (s.«end» - s.start) ≤ d →
      (dragUpdate d a δ .move s).start = max 0 (a + δ) ∧
      (dragUpdate d a δ .move s).«end» = max 0 (a + δ) + (s.«end» - s.start)) ∧
    (d < max 0 (a + δ) + (s.«end» - s.start) →
      (dragUpdate d a δ .move s).«end» = d ∧
      (dragUpdate d a δ .move s).start = d - (s.«end» - s.start)) := by
  obtain ⟨h0, hlt, hle⟩ := hinv
  obtain ⟨tx, st, en, sp⟩ := s
  simp only at h0 hlt hle
  simp only [dragUpdate]
  split_ifs with h
  · simp only at h ⊢
    exact ⟨by ring, by linarith, by linarith, le_refl d,
      fun hc => absurd hc (by linarith),
      fun _ => ⟨by trivial, by trivial⟩⟩
  · push_neg at h
    simp only at h ⊢
    exact ⟨by ring, le_max_left 0 _, by linarith, by linarith,
      fun _ => ⟨by trivial, by trivial⟩,
      fun hc => absurd hc (by linarith)⟩

theorem move_drag_update_formula_witness :
    (dragUpdate 100 95 10 DragMode.move ⟨"a", 95, 98, none⟩).«end» = 100 ∧
    (dragUpdate 100 95 10 DragMode.move ⟨"a", 95, 98, none⟩).start = 100 - (98 - 95) :=
  (move_drag_update_formula 100 95 10 ⟨"a", 95, 98, none⟩
    (by norm_num [SegInvariant])).2.2.2.2.2 (by norm_num [max_def])

/-- C3 counterexample: the segment `{start := 0.01, end := 0.05}` satisfies
the at-rest invariant in a 100-second timeline, yet a `resize-start` update
with zero delta leaves it with duration `0.05 < 0.1`: the outer `max 0`
clamp overrides the `end - 0.1` minimum whenever `end < 0.1`. -/
theorem resize_min_duration_cex :
    SegInvariant 100 ⟨"a", 0.01, 0.05, none⟩ ∧
    (dragUpdate 100 0.01 0 DragMode.resizeStart ⟨"a", 0.01, 0.05, none⟩).«end» -
      (dragUpdate 100 0.01 0 DragMode.resizeStart ⟨"a", 0.01, 0.05, none⟩).start
      < 0.1 := by
  constructor
  · norm_num [SegInvariant]
  · norm_num [dragUpdate, min_def, max_def]

/-- C3 amended: a `resize-start` or `resize-end` update can never shrink the
duration below `0.1` seconds, for any pointer delta, provided the segment
satisfies the at-rest invariant and already has duration at least `0.1`
(equivalently `end ≥ 0.1` and `totalDuration - start ≥ 0.1`). -/
theorem resize_min_duration_amended (d a δ : ℚ) (m : DragMode)
    (s : TimelineSegment) (hm : m = DragMode.resizeStart ∨ m = DragMode.resizeEnd)
    (hinv : SegInvariant d s) (hdur : 0.1 ≤ s.«end» - s.start) :
    0.1 ≤ (dragUpdate d a δ m s).«end» - (dragUpdate d a δ m s).start := by
  obtain ⟨h0, hlt, hle⟩ := hinv
  rcases hm with rfl | rfl
  · simp only [dragUpdate]
    have h1 : min (a + δ) (s.«end» - 0.1) ≤ s.«end» - 0.1 := min_le_right _ _
    have h2 : (0 : ℚ) ≤ s.«end» - 0.1 := by linarith
    have h3 : max 0 (min (a + δ) (s.«end» - 0.1)) ≤ s.«end» - 0.1 := max_le h2 h1
    linarith
  · simp only [dragUpdate]
    have h1 : s.start + 0.1 ≤ max (a + δ) (s.start + 0.1) := le_max_right _ _
    have h2 : s.start + 0.1 ≤ d := by linarith
    have h3 : s.start + 0.1 ≤ min d (max (a + δ) (s.start + 0.1)) := le_min h2 h1
    linarith

theorem resize_min_duration_amended_witness :
    (0.1 : ℚ) ≤ (dragUpdate 100 10 (-50) DragMode.resizeStart ⟨"a", 10, 12, none⟩).«end» -
      (dragUpdate 100 10 (-50) DragMode.resizeStart ⟨"a", 10, 12, none⟩).start :=
  resize_min_duration_amended 100 10 (-50) DragMode.resizeStart ⟨"a", 10, 12, none⟩
    (Or.inl rfl) (by norm_num [SegInvariant]) (by norm_num)

/-- C1: if every segment satisfies `0 ≤ start < end ≤ totalDuration` before a
drag, then every segment still satisfies it after the committed edit, in every
drag mode: a pointer-down leaves the segments unchanged, every pointer-move
preserves the invariant for the whole collection, and pointer-up commits
bounds taken from an invariant-satisfying state (and leaves the collection
unchanged). -/
theorem drag_commit_preserves_invariant (p : EditorProps) (w : Option ℚ)
    (st : EditorState)
    (hinv : ∀ s ∈ st.timelineSegments, SegInvariant p.totalDuration s) :
    (∀ i m x st' c, step p w st (.mouseDown i m x) = some (st', c) →
      st'.timelineSegments = st.timelineSegments) ∧
    (∀ x st' c, step p w st (.mouseMove x) = some (st', c) →
      ∀ s ∈ st'.timelineSegments, SegInvariant p.totalDuration s) ∧
    (∀ st' c, step p w st .mouseUp = some (st', c) →
      st'.timelineSegments = st.timelineSegments ∧
      ∀ i ns ne, c = some (i, ns, ne) →
        0 ≤ ns ∧ ns < ne ∧ ne ≤ p.totalDuration) := by
  refine ⟨?_, ?_, ?_⟩
  · intro i m x st' c h
    simp only [step] at h
    rcases hg : st.timelineSegments.get? i with _ | seg
    · rw [hg] at h
      exact absurd h (by simp)
    · rw [hg] at h
      simp only [Option.some.injEq, Prod.mk.injEq] at h
      rw [← h.1]
  · intro x st' c h
    simp only [step] at h
    rcases hd : st.draggedIndex with _ | i <;>
      rcases hm : st.dragMode with _ | mode <;>
      rcases hw : w with _ | wv <;>
      rw [hd, hm, hw] at h <;>
      simp only [Option.some.injEq, Prod.mk.injEq] at h
    all_goals try { rw [← h.1]; exact hinv }
    rcases hg : st.timelineSegments.get? i with _ | seg
    · rw [hg] at h
      exact absurd h (by simp)
    · rw [hg] at h
      simp only [Option.some.injEq, Prod.mk.injEq] at h
      rw [← h.1]
      intro s hs
      rcases List.mem_or_eq_of_mem_set hs with hmem | rfl
      · exact hinv s hmem
      · exact dragUpdate_invariant _ _ _ _ _ (hinv seg (List.get?_mem hg))
  · intro st' c h
    simp only [step] at h
    rcases hd : st.draggedIndex with _ | i <;>
      rcases hcb : p.hasOnSegmentUpdate with _ | _ <;>
      rw [hd, hcb] at h <;>
      simp only [Option.some.injEq, Prod.mk.injEq] at h
    · exact ⟨by rw [← h.1], fun i ns ne hc => by
        rw [← h.2] at hc
        exact absurd hc (by simp)⟩
    · exact ⟨by rw [← h.1], fun i ns ne hc => by
        rw [← h.2] at hc
        exact absurd hc (by simp)⟩
    · exact ⟨by rw [← h.1], fun i ns ne hc => by
        rw [← h.2] at hc
        exact absurd hc (by simp)⟩
    · rcases hg : st.timelineSegments.get? i with _ | seg
      · rw [hg] at h
        exact absurd h (by simp)
      · rw [hg] at h
        simp only [Option.some.injEq, Prod.mk.injEq] at h
        refine ⟨by rw [← h.1], fun j ns ne hc => ?_⟩
        rw [← h.2] at hc
        simp only [Option.some.injEq, Prod.mk.injEq] at hc
        obtain ⟨-, h2, h3⟩ := hc
        obtain ⟨g0, g1, g2⟩ := hinv seg (List.get?_mem hg)
        exact ⟨h2 ▸ g0, h2 ▸ h3 ▸ g1, h3 ▸ g2⟩

theorem drag_commit_preserves_invariant_witness :
    SegInvariant 100 ⟨"a", 98, 100, none⟩ := by
  have hstep :
      step ⟨100, true⟩ (some 100)
        ⟨[⟨"a", 10, 12, none⟩], some 0, some .move, 5, 10, 0, false, 1⟩
        (.mouseMove 105)
      = some (⟨[⟨"a", 98, 100, none⟩], some 0, some .move, 5, 10, 0, false, 1⟩, none) := by
    norm_num [step, pixelsToTime, dragUpdate, max_def, min_def]
  have h := (drag_commit_preserves_invariant ⟨100, true⟩ (some 100)
      ⟨[⟨"a", 10, 12, none⟩], some 0, some .move, 5, 10, 0, false, 1⟩
      (by intro s hs
          simp only [List.mem_singleton] at hs
          subst hs
          norm_num [SegInvariant])).2.1
    105 ⟨[⟨"a", 98, 100, none⟩], some 0, some .move, 5, 10, 0, false, 1⟩ none hstep
  exact h ⟨"a", 98, 100, none⟩ (by simp)

/-- C4 counterexample: with the Transport Clock running at
`currentTime = 99.95` and `totalDuration = 100`, a single tick yields
`currentTime = 100.05` with the clock still running — not `currentTime = 0`
and `Stopped` as claimed: the end-of-timeline check is applied to the
pre-tick value `99.95 < 100`, so the tick advances past the end. -/
theorem transport_tick_9995_cex :
    step ⟨100, true⟩ (some 100) ⟨[], none, none, 0, 0, 99.95, true, 1⟩ .tick =
      some (⟨[], none, none, 0, 0, 100.05, true, 1⟩, none) ∧
    (100.05 : ℚ) ≠ 0 := by
  constructor
  · norm_num [step]
  · norm_num

/-- C4 amended: while `Running`, a tick whose pre-tick `currentTime` is below
`totalDuration` advances `currentTime` by exactly `0.1` and keeps playing; a
tick whose pre-tick `currentTime` is at or past `totalDuration` stops the
clock and resets `currentTime` to `0`.  In particular from
`currentTime = 99.95`, `totalDuration = 100`, the first tick yields `100.05`
still running and only the following tick stops and resets to `0`. -/
theorem transport_tick_amended (p : EditorProps) (w : Option ℚ)
    (st : EditorState) (hplay : st.isPlaying = true) :
    (st.currentTime < p.totalDuration →
      step p w st .tick = some ({ st with currentTime := st.currentTime + 0.1 }, none)) ∧
    (p.totalDuration ≤ st.currentTime →
      step p w st .tick = some ({ st with isPlaying := false, currentTime := 0 }, none)) := by
  constructor
  · intro h
    simp only [step, hplay, if_true, ge_iff_le]
    rw [if_neg (not_le.mpr h)]
  · intro h
    simp only [step, hplay, if_true, ge_iff_le]
    rw [if_pos h]

theorem transport_tick_amended_witness :
    step ⟨100, true⟩ (some 100) ⟨[], none, none, 0, 0, 99.95, true, 1⟩ .tick =
      some (⟨[], none, none, 0, 0, 99.95 + 0.1, true, 1⟩, none) ∧
    step ⟨100, true⟩ (some 100) ⟨[], none, none, 0, 0, 100.05, true, 1⟩ .tick =
      some (⟨[], none, none, 0, 0, 0, false, 1⟩, none) :=
  ⟨(transport_tick_amended ⟨100, true⟩ (some 100)
      ⟨[], none, none, 0, 0, 99.95, true, 1⟩ rfl).1 (by norm_num),
   (transport_tick_amended ⟨100, true⟩ (some 100)
      ⟨[], none, none, 0, 0, 100.05, true, 1⟩ rfl).2 (by norm_num)⟩

/-- C5 counterexample: with a drag session open on index 0 of
`[{start 1, end 2}]`, externally replacing the segment list by
`[{start 5, end 7}]` and then releasing the pointer still invokes
`onSegmentUpdate` — with `(0, 5, 7)`, read from the new list — so the
in-flight drag is not abandoned without commit as claimed. -/
theorem external_replacement_commit_cex :
    (Option.bind
      (Option.bind (step ⟨100, true⟩ (some 100)
          ⟨[⟨"old", 1, 2, none⟩], none, none, 0, 0, 0, false, 1⟩
          (.mouseDown 0 .move 0))
        (fun r => step ⟨100, true⟩ (some 100) r.1
          (.setSegments [⟨"new", 5, 7, none⟩])))
      (fun r => step ⟨100, true⟩ (some 100) r.1 .mouseUp)).map (fun r => r.2)
    = some (some (0, 5, 7)) := by
  norm_num [step, pixelsToTime, dragUpdate, max_def, min_def]

/-- C5 amended: an external replacement of the `segments` input resets the
internal segment list to the new input but does not touch the drag session:
`draggedIndex`, `dragMode` and the drag anchors survive (the state changes in
no other field), and a subsequent pointer-up with the callback supplied
commits `(i, start, end)` of the segment at the dragged index of the NEW
list. -/
theorem external_replacement_keeps_session (p : EditorProps) (w : Option ℚ)
    (st : EditorState) (newSegs : List TimelineSegment) (i : Nat)
    (seg : TimelineSegment) (hdrag : st.draggedIndex = some i)
    (hcb : p.hasOnSegmentUpdate = true) (hget : newSegs.get? i = some seg) :
    step p w st (.setSegments newSegs) =
      some ({ st with timelineSegments := newSegs }, none) ∧
    step p w { st with timelineSegments := newSegs } .mouseUp =
      some ({ st with timelineSegments := newSegs,
                      draggedIndex := none, dragMode := none },
            some (i, seg.start, seg.«end»)) := by
  refine ⟨rfl, ?_⟩
  simp only [step, hdrag, hcb, hget]

theorem external_replacement_keeps_session_witness :
    step ⟨100, true⟩ (some 100)
      ⟨[⟨"old", 1, 2, none⟩], some 0, some .move, 0, 1, 0, false, 1⟩
      (.setSegments [⟨"new", 5, 7, none⟩]) =
      some (⟨[⟨"new", 5, 7, none⟩], some 0, some .move, 0, 1, 0, false, 1⟩, none) ∧
    step ⟨100, true⟩ (some 100)
      ⟨[⟨"new", 5, 7, none⟩], some 0, some .move, 0, 1, 0, false, 1⟩ .mouseUp =
      some (⟨[⟨"new", 5, 7, none⟩], none, none, 0, 1, 0, false, 1⟩, some (0, 5, 7)) :=
  external_replacement_keeps_session ⟨100, true⟩ (some 100)
    ⟨[⟨"old", 1, 2, none⟩], some 0, some .move, 0, 1, 0, false, 1⟩
    [⟨"new", 5, 7, none⟩] 0 ⟨"new", 5, 7, none⟩ rfl rfl rfl

/-- C8 counterexample: the segment `{start 1, end 1.05}` satisfies the at-rest
invariant in a 100-second timeline, yet a full `resize-start` drag with zero
net pixel movement (down at x = 5, move at x = 5, up) commits
`(0.95, 1.05)` instead of the original `(1, 1.05)`: with duration below
`0.1`, the `end - 0.1` clamp fires even at zero delta. -/
theorem zero_delta_commit_cex :
    SegInvariant 100 ⟨"a", 1, 1.05, none⟩ ∧
    (Option.bind
      (Option.bind (step ⟨100, true⟩ (some 100)
          ⟨[⟨"a", 1, 1.05, none⟩], none, none, 0, 0, 0, false, 1⟩
          (.mouseDown 0 .resizeStart 5))
        (fun r => step ⟨100, true⟩ (some 100) r.1 (.mouseMove 5)))
      (fun r => step ⟨100, true⟩ (some 100) r.1 .mouseUp)).map (fun r => r.2)
    = some (some (0, 0.95, 1.05)) ∧
    (0.95 : ℚ) ≠ 1 := by
  refine ⟨by norm_num [SegInvariant], ?_, by norm_num⟩
  norm_num +decide [step, pixelsToTime, dragUpdate, max_def, min_def]

/-- C8 amended: a drag with zero net pixel movement commits the original
`(start, end)` exactly, in every mode and after any number of intermediate
moves, provided the segment satisfies the at-rest invariant and has duration
at least `0.1` seconds.  A zero pixel delta converts to a zero time delta,
and the per-move update only depends on the latest delta, so the final
zero-delta move restores the original segment. -/
theorem zero_delta_drag_commits_original (d z : ℚ) (w? : Option ℚ)
    (m : DragMode) (s : TimelineSegment) (deltas : List ℚ)
    (hinv : SegInvariant d s) (hdur : 0.1 ≤ s.«end» - s.start) :
    pixelsToTime d z w? 0 = 0 ∧
    runMoves d (anchorFor m s) m s (deltas ++ [pixelsToTime d z w? 0]) = s := by
  have hz : pixelsToTime d z w? 0 = 0 := by
    cases w? <;> simp [pixelsToTime]
  refine ⟨hz, ?_⟩
  have hsplit :
      runMoves d (anchorFor m s) m s (deltas ++ [pixelsToTime d z w? 0]) =
        dragUpdate d (anchorFor m s) (pixelsToTime d z w? 0) m
          (runMoves d (anchorFor m s) m s deltas) := by
    simp [runMoves, List.foldl_append]
  rw [hsplit, dragUpdate_runMoves, hz, dragUpdate_zero d m s hinv hdur]

theorem zero_delta_drag_commits_original_witness :
    pixelsToTime 100 1 (some 100) 0 = 0 ∧
    runMoves 100 (anchorFor DragMode.resizeEnd ⟨"a", 10, 12, none⟩)
      DragMode.resizeEnd ⟨"a", 10, 12, none⟩
      ([3, -7] ++ [pixelsToTime 100 1 (some 100) 0]) = ⟨"a", 10, 12, none⟩ :=
  zero_delta_drag_commits_original 100 1 (some 100) DragMode.resizeEnd
    ⟨"a", 10, 12, none⟩ [3, -7] (by norm_num [SegInvariant]) (by norm_num)

/-- C9: a drag update (pointer-move) emits no commit and changes at most the
`start`/`end` of the segment at the dragged index — the list length, every
other entry, and the `text`/`speaker` of every entry are unchanged; a
pointer-up leaves the whole segment list unchanged; and a clock tick, a
click-to-seek and a play/pause toggle leave the segment list unchanged and
commit nothing. -/
theorem editor_frame_effect (p : EditorProps) (w : Option ℚ)
    (st : EditorState) :
    (∀ x st' c, step p w st (.mouseMove x) = some (st', c) →
      c = none ∧
      st'.timelineSegments.length = st.timelineSegments.length ∧
      (∀ j, st.draggedIndex ≠ some j →
        st'.timelineSegments.get? j = st.timelineSegments.get? j) ∧
      (∀ j,
        (st'.timelineSegments.get? j).map TimelineSegment.text =
          (st.timelineSegments.get? j).map TimelineSegment.text ∧
        (st'.timelineSegments.get? j).map TimelineSegment.speaker =
          (st.timelineSegments.get? j).map TimelineSegment.speaker)) ∧
    (∀ st' c, step p w st .mouseUp = some (st', c) →
      st'.timelineSegments = st.timelineSegments) ∧
    (∀ st' c, step p w st .tick = some (st', c) →
      st'.timelineSegments = st.timelineSegments ∧ c = none) ∧
    (∀ x r st' c, step p w st (.timelineClick x r) = some (st', c) →
      st'.timelineSegments = st.timelineSegments ∧ c = none) ∧
    (∀ st' c, step p w st .togglePlay = some (st', c) →
      st'.timelineSegments = st.timelineSegments ∧ c = none) := by
  refine ⟨?_, ?_, ?_, ?_, ?_⟩
  · intro x st' c h
    simp only [step] at h
    rcases hd : st.draggedIndex with _ | i <;>
      rcases hm : st.dragMode with _ | mode <;>
      rcases hw : w with _ | wv <;>
      rw [hd, hm, hw] at h <;>
      simp only [Option.some.injEq, Prod.mk.injEq] at h
    all_goals try
      { obtain ⟨h1, h2⟩ := h
        subst h1
        exact ⟨h2.symm, rfl, fun _ _ => rfl, fun _ => ⟨rfl, rfl⟩⟩ }
    rcases hg : st.timelineSegments.get? i with _ | seg
    · rw [hg] at h
      exact absurd h (by simp)
    · rw [hg] at h
      simp only [Option.some.injEq, Prod.mk.injEq] at h
      obtain ⟨h1, h2⟩ := h
      rw [← h1]
      refine ⟨h2.symm, by simp, fun j hj => ?_, fun j => ?_⟩
      · have hij : i ≠ j := by
          intro hij
          apply hj
          rw [hij]
        exact List.get?_set_ne _ _ hij
      · by_cases hij : i = j
        · subst hij
          have hlen : i < st.timelineSegments.length :=
            List.get?_eq_some.mp hg |>.choose
          rw [List.get?_set_eq_of_lt _ hlen, hg]
          simp [dragUpdate_text, dragUpdate_speaker]
        · rw [List.get?_set_ne _ _ hij]
          exact ⟨rfl, rfl⟩
  · intro st' c h
    simp only [step] at h
    rcases hd : st.draggedIndex with _ | i <;>
      rcases hcb : p.hasOnSegmentUpdate with _ | _ <;>
      rw [hd, hcb] at h <;>
      simp only [Option.some.injEq, Prod.mk.injEq] at h
    · rw [← h.1]
    · rw [← h.1]
    · rw [← h.1]
    · rcases hg : st.timelineSegments.get? i with _ | seg
      · rw [hg] at h
        exact absurd h (by simp)
      · rw [hg] at h
        simp only [Option.some.injEq, Prod.mk.injEq] at h
        rw [← h.1]
  · intro st' c h
    simp only [step] at h
    rcases hp : st.isPlaying with _ | _ <;> rw [hp] at h <;>
      simp only [Bool.false_eq_true, if_false, if_true,
        Option.some.injEq, Prod.mk.injEq] at h
    · exact ⟨by rw [← h.1], h.2.symm⟩
    · split at h <;>
        simp only [Option.some.injEq, Prod.mk.injEq] at h <;>
        exact ⟨by rw [← h.1], h.2.symm⟩
  · intro x r st' c h
    simp only [step] at h
    rcases hw : w with _ | wv <;>
      rcases hd : st.draggedIndex with _ | i <;>
      rw [hw, hd] at h <;>
      simp only [Option.some.injEq, Prod.mk.injEq] at h <;>
      exact ⟨by rw [← h.1], h.2.symm⟩
  · intro st' c h
    simp only [step, Option.some.injEq, Prod.mk.injEq] at h
    exact ⟨by rw [← h.1], h.2.symm⟩

theorem editor_frame_effect_witness :
    ([(⟨"a", 20, 22, none⟩ : TimelineSegment), ⟨"b", 20, 30, some "SPEAKER_01"⟩].length =
      [(⟨"a", 10, 12, none⟩ : TimelineSegment), ⟨"b", 20, 30, some "SPEAKER_01"⟩].length) ∧
    ([(⟨"a", 20, 22, none⟩ : TimelineSegment), ⟨"b", 20, 30, some "SPEAKER_01"⟩].get? 1 =
      [(⟨"a", 10, 12, none⟩ : TimelineSegment), ⟨"b", 20, 30, some "SPEAKER_01"⟩].get? 1) := by
  have hstep :
      step ⟨100, true⟩ (some 100)
        ⟨[⟨"a", 10, 12, none⟩, ⟨"b", 20, 30, some "SPEAKER_01"⟩],
          some 0, some .move, 5, 10, 0, false, 1⟩ (.mouseMove 15)
      = some (⟨[⟨"a", 20, 22, none⟩, ⟨"b", 20, 30, some "SPEAKER_01"⟩],
          some 0, some .move, 5, 10, 0, false, 1⟩, none) := by
    norm_num [step, pixelsToTime, dragUpdate, max_def, min_def]
  have h := (editor_frame_effect ⟨100, true⟩ (some 100)
      ⟨[⟨"a", 10, 12, none⟩, ⟨"b", 20, 30, some "SPEAKER_01"⟩],
        some 0, some .move, 5, 10, 0, false, 1⟩).1 15
    ⟨[⟨"a", 20, 22, none⟩, ⟨"b", 20, 30, some "SPEAKER_01"⟩],
      some 0, some .move, 5, 10, 0, false, 1⟩ none hstep
  exact ⟨h.2.1, h.2.2.1 1 (by simp)⟩

/-- C10 counterexample: the label `"A_B"` has a numeric-suffix parse failure
(`parseInt "B"` is `NaN`), and `getSpeakerColor` then reads
`colors[NaN]`, which is `undefined` — not the palette entry at index 0
(`"bg-blue-500"`) as claimed. -/
theorem speaker_color_parse_failure_cex :
    speakerNum "A_B" = none ∧ getSpeakerColor (some "A_B") = none ∧
    colors.get? 0 = some "bg-blue-500" := by decide

/-- C10 amended: `getSpeakerColor` is a pure total function that never
throws; a missing (`undefined`, and likewise empty) speaker yields the
default color; a label whose underscore-suffix field is missing or empty
falls back to the string "0" and yields the palette entry at index 0; a
suffix parsing to a nonnegative number yields some palette entry; but on a
parse failure of a nonempty suffix the function returns `undefined` (no
palette entry), not the entry at index 0. -/
theorem speaker_color_total_amended :
    (getSpeakerColor none = some "bg-blue-500") ∧
    (∀ s, s ≠ "" →
      ((speakerFields s).get? 1 = none ∨ (speakerFields s).get? 1 = some "") →
      getSpeakerColor (some s) = colors.get? 0) ∧
    (∀ s n, speakerNum s = some n → 0 ≤ n →
      (getSpeakerColor (some s)).isSome = true) ∧
    (∀ s, s ≠ "" → speakerNum s = none → getSpeakerColor (some s) = none) := by
  refine ⟨rfl, ?_, ?_, ?_⟩
  · intro s hs hfield
    have hnum : speakerNum s = some 0 := by
      have h0 : jsParseInt "0" = some 0 := by decide
      rcases hfield with hf | hf <;>
        rw [List.get?_eq_getElem?] at hf <;>
        simp [speakerNum, jsOrElse, hf, h0]
    simp only [getSpeakerColor, if_neg hs, hnum]
    norm_num
  · intro s n hn h0
    simp only [getSpeakerColor]
    split_ifs with hs
    · rfl
    · rw [hn]
      simp only []
      have hlen : (colors.length : Int) = 6 := rfl
      have hnn : 0 ≤ Int.tmod n (colors.length : Int) := Int.tmod_nonneg _ h0
      have hlt : Int.tmod n (colors.length : Int) < 6 := by
        rw [hlen]
        exact Int.tmod_lt_of_pos _ (by norm_num)
      rw [if_pos hnn]
      have htn : (Int.tmod n (colors.length : Int)).toNat < colors.length := by
        show _ < 6
        omega
      rw [List.get?_eq_getElem?, List.getElem?_eq_getElem htn]
      rfl
  · intro s hs hn
    simp only [getSpeakerColor, if_neg hs, hn]

theorem speaker_color_total_amended_witness :
    getSpeakerColor none = some "bg-blue-500" ∧
    getSpeakerColor (some "ALICE") = colors.get? 0 ∧
    (getSpeakerColor (some "SPEAKER_01")).isSome = true ∧
    getSpeakerColor (some "A_B") = none :=
  ⟨speaker_color_total_amended.1,
   speaker_color_total_amended.2.1 "ALICE" (by decide) (by decide),
   speaker_color_total_amended.2.2.1 "SPEAKER_01" 1 (by decide) (by decide),
   speaker_color_total_amended.2.2.2 "A_B" (by decide) (by decide)⟩

end VideoCaps
